import Mathlib

/-!
Verification of the stack-walking core described by
`src/Native/Runtime/StackFrameIterator.h` (CoreRT runtime).

The repository ships only the interface header of `StackFrameIterator`; the
bodies of its methods live in a translation unit that is not part of this
tree.  The mode-flag and exception-kind enumerations are fully given in the
header and are embedded verbatim below.  Every behavioural definition whose
body is missing is modelled from the specification's description of the
advance operation, the thunk classifier and the exception-collision logic,
and is marked `Modelled from the spec:` in its doc comment.

Conventions of the embedding:
* machine addresses and stack pointers are `Nat`;
* a physical stack is a list of frames ordered leafmost (most nested,
  lowest address) first, so the walk traverses the list front to back and
  stack addresses grow toward the bottom of the managed call chain;
* the exception-info chain is a list of record stack addresses in ascending
  order, and the iterator's cursor is the not-yet-consumed suffix.
-/

/-! ## Mode flags (from `StackFrameIterator::Flags`, header lines 121-147) -/

/-- Flag `ApplyReturnAddressAdjustment = 1`: each unwind applies a `-1` to the
control PC so that an EH lookup stays inside the containing try region. -/
def ApplyReturnAddressAdjustment : Nat := 1

/-- Flag `CollapseFunclets = 2`: the GC stackwalk gives only one callback per
method activation, at its most nested (leafmost) physical frame. -/
def CollapseFunclets : Nat := 2

/-- Flag `ExCollide = 4`: state returned by `Next()` signalling that the
unwind just crossed an `ExInfo`. -/
def ExCollide : Nat := 4

/-- Flag `RemapHardwareFaultsToSafePoint = 8`: report a hardware-fault
frame's control PC at the binder-inserted GC safe point just after the
prolog of the most nested enclosing try-region's handler. -/
def RemapHardwareFaultsToSafePoint : Nat := 8

/-- Flag `MethodStateCalculated = 0x10`. -/
def MethodStateCalculated : Nat := 0x10

/-- Flag `UnwoundReversePInvoke = 0x20`. -/
def UnwoundReversePInvoke : Nat := 0x20

/-- Flag set used by GC stack walks (header: `CollapseFunclets |
RemapHardwareFaultsToSafePoint`). -/
def GcStackWalkFlags : Nat := CollapseFunclets ||| RemapHardwareFaultsToSafePoint

/-- Flag set used by exception-handling stack walks (header:
`ApplyReturnAddressAdjustment`). -/
def EHStackWalkFlags : Nat := ApplyReturnAddressAdjustment

/-- Flag set used by stack-trace walks (header: `StackTraceStackWalkFlags =
GcStackWalkFlags`). -/
def StackTraceStackWalkFlags : Nat := GcStackWalkFlags

/-! ## Exception kinds (from `enum ExKind`, header lines 8-12) -/

/-- Exception kind bit `EK_HardwareFault = 2`. -/
def EK_HardwareFault : Nat := 2

/-- Exception kind bit `EK_SuperscededFlag = 8`. -/
def EK_SuperscededFlag : Nat := 8

/-! ## Thunk classification (header lines 108-118) -/

/-- The six return-address categories of
`StackFrameIterator::ReturnAddressCategory`. -/
inductive ReturnAddressCategory
  | InManagedCode
  | InThrowSiteThunk
  | InFuncletInvokeThunk
  | InManagedCalloutThunk
  | InCallDescrThunk
  | InUniversalTransitionThunk
deriving DecidableEq, Repr

/-- A half-open address range `[start, stop)` occupied by one hand-written
trampoline. -/
structure CodeRange where
  start : Nat
  stop : Nat
deriving DecidableEq, Repr

/-- Membership of an address in a trampoline code range. -/
def CodeRange.containsAddr (r : CodeRange) (a : Nat) : Bool :=
  decide (r.start ≤ a) && decide (a < r.stop)

/-- Two code ranges occupy disjoint address intervals. -/
def CodeRange.DisjointFrom (r s : CodeRange) : Prop :=
  r.stop ≤ s.start ∨ s.stop ≤ r.start

/-- The fixed trampoline code ranges the classifier checks an address
against. -/
structure ThunkRanges where
  throwSite : CodeRange
  funcletInvoke : CodeRange
  managedCallout : CodeRange
  callDescr : CodeRange
  universalTransition : CodeRange
deriving DecidableEq, Repr

/-- All five trampoline ranges are pairwise disjoint. -/
def ThunkRanges.Wellformed (tr : ThunkRanges) : Prop :=
  tr.throwSite.DisjointFrom tr.funcletInvoke ∧
  tr.throwSite.DisjointFrom tr.managedCallout ∧
  tr.throwSite.DisjointFrom tr.callDescr ∧
  tr.throwSite.DisjointFrom tr.universalTransition ∧
  tr.funcletInvoke.DisjointFrom tr.managedCallout ∧
  tr.funcletInvoke.DisjointFrom tr.callDescr ∧
  tr.funcletInvoke.DisjointFrom tr.universalTransition ∧
  tr.managedCallout.DisjointFrom tr.callDescr ∧
  tr.managedCallout.DisjointFrom tr.universalTransition ∧
  tr.callDescr.DisjointFrom tr.universalTransition

/-- Modelled from the spec: the body of the static classifier
`StackFrameIterator::CategorizeUnadjustedReturnAddress` is not in the tree.
It checks an (unadjusted) control address against the known fixed trampoline
code ranges and returns the matching category, defaulting to ordinary
managed code; it reads no iterator state (the source declares it `static`
over the address alone). -/
def CategorizeUnadjustedReturnAddress (tr : ThunkRanges) (returnAddress : Nat) :
    ReturnAddressCategory :=
  if tr.throwSite.containsAddr returnAddress then .InThrowSiteThunk
  else if tr.funcletInvoke.containsAddr returnAddress then .InFuncletInvokeThunk
  else if tr.managedCallout.containsAddr returnAddress then .InManagedCalloutThunk
  else if tr.callDescr.containsAddr returnAddress then .InCallDescrThunk
  else if tr.universalTransition.containsAddr returnAddress then .InUniversalTransitionThunk
  else .InManagedCode

/-! ## Return-address adjustment (header lines 101-103 and 121-125) -/

/-- Modelled from the spec: the body of
`StackFrameIterator::AdjustReturnAddressBackward` is not in the tree.  The
header comment on `ApplyReturnAddressAdjustment` states that each unwind
applies a `-1` to the control PC. -/
def AdjustReturnAddressBackward (controlPC : Nat) : Nat := controlPC - 1

/-- Modelled from the spec: an advance applies the backward adjustment to
the control address reported by the unwinder exactly when the walk's flag
set contains `ApplyReturnAddressAdjustment`. -/
def applyAdjustment (dwFlags : Nat) (controlPC : Nat) : Nat :=
  if dwFlags &&& ApplyReturnAddressAdjustment != 0 then
    AdjustReturnAddressBackward controlPC
  else controlPC

/-! ## Exception-info cursor (header lines 91-94 and 195) -/

/-- Modelled from the spec: the body of
`StackFrameIterator::ResetNextExInfoForSP` is not in the tree.  Per the spec
it repositions the cursor (the remaining suffix of the ascending
exception-info chain) to the first record whose stack address is at or
above the given SP, walking forward from the cursor's current value. -/
def ResetNextExInfoForSP (SP : Nat) (exInfoChain : List Nat) : List Nat :=
  exInfoChain.dropWhile (fun addr => decide (addr < SP))

/-- Modelled from the spec: one advance compares the new frame's stack
address against the cursor's next pending record; if the walk has passed
that record's address the collision is signalled and the cursor moves past
the consumed record (advance step 4 of the spec). -/
def collideStep (sp : Nat) (chain : List Nat) : Option Nat × List Nat :=
  match chain with
  | [] => (none, [])
  | addr :: rest => if addr ≤ sp then (some addr, rest) else (none, addr :: rest)

/-- Collisions reported across one walk: the walk visits the given frame
stack addresses in order, threading the exception-info cursor through
`collideStep`. -/
def reportedCollisions : List Nat → List Nat → List Nat
  | [], _ => []
  | sp :: sps, chain =>
    match collideStep sp chain with
    | (some addr, rest) => addr :: reportedCollisions sps rest
    | (none, rest) => reportedCollisions sps rest

/-- The exception-info cursor left after a walk over the given frame stack
addresses. -/
def finalExInfoCursor : List Nat → List Nat → List Nat
  | [], chain => chain
  | sp :: sps, chain => finalExInfoCursor sps (collideStep sp chain).2

/-! ## Hardware-fault remapping (header lines 96-97 and 135-137) -/

/-- A protected (try) region together with the GC-safe point the binder
inserted immediately after the prologue of its handler. -/
structure EHRegion where
  tryStart : Nat
  tryStop : Nat
  handlerSafePoint : Nat
deriving DecidableEq, Repr

/-- Membership of a control address in a protected region. -/
def EHRegion.containsPC (r : EHRegion) (pc : Nat) : Bool :=
  decide (r.tryStart ≤ pc) && decide (pc < r.tryStop)

/-- Extent of a protected region; with properly nested regions the most
nested enclosing region is the smallest one containing the address. -/
def EHRegion.extent (r : EHRegion) : Nat := r.tryStop - r.tryStart

/-- The most nested protected region enclosing a control address: among the
regions containing it, one of minimal extent. -/
def nearestEnclosingHandler (regions : List EHRegion) (pc : Nat) : Option EHRegion :=
  (regions.filter (fun r => r.containsPC pc)).argmin EHRegion.extent

/-- Modelled from the spec: the body of
`StackFrameIterator::RemapHardwareFaultToGCSafePoint` is not in the tree.
When the walk's flags contain `RemapHardwareFaultsToSafePoint` and the
frame's exception kind carries `EK_HardwareFault`, the reported control
address is replaced by the safe point of the most nested enclosing
handler's region; otherwise it is left unchanged. -/
def RemapHardwareFaultToGCSafePoint (dwFlags : Nat) (exKind : Nat)
    (regions : List EHRegion) (controlPC : Nat) : Nat :=
  if dwFlags &&& RemapHardwareFaultsToSafePoint != 0 && exKind &&& EK_HardwareFault != 0 then
    match nearestEnclosingHandler regions controlPC with
    | some r => r.handlerSafePoint
    | none => controlPC
  else controlPC

/-! ## The walk itself: frames, advance, reported sequence -/

/-- Kinds of hand-written trampoline a crossed frame can belong to. -/
inductive ThunkKind
  | throwSite
  | funcletInvoke
  | managedCallout
  | callDescr
  | universalTransition
deriving DecidableEq, Repr

/-- A physical stack frame: either managed code belonging to some method
activation (funclet frames share their parent's activation id), or a
trampoline frame. -/
inductive FrameKind
  | managed (activation : Nat)
  | thunk (t : ThunkKind)
deriving DecidableEq, Repr

/-- One physical frame: its stack address and its kind. -/
structure PhysFrame where
  sp : Nat
  kind : FrameKind
deriving DecidableEq, Repr

/-- The activation id of a managed frame, `none` for a trampoline frame. -/
def PhysFrame.activationOf (f : PhysFrame) : Option Nat :=
  match f.kind with
  | .managed a => some a
  | .thunk _ => none

/-- Per the spec only the managed-callout and universal-transition thunk
recovery routines publish a non-null conservative stack range. -/
def publishesConservativeRange : ThunkKind → Bool
  | .managedCallout => true
  | .universalTransition => true
  | _ => false

/-- Modelled from the spec: the core of one advance (`NextInternal`'s loop
over crossed frames, whose body is not in the tree).  Starting with the
conservative range cleared, the walk crosses trampoline frames (a
managed-callout or universal-transition thunk publishes a conservative
range anchored at its stack address) and, when funclet collapsing is on,
silently skips managed frames belonging to the activation already surfaced,
until it lands on the next managed frame to report; `none` means the walk
ran off the bottom of the stack. -/
def advanceFrames (collapse : Bool) :
    Option Nat → Option (Nat × Nat) → List PhysFrame →
    Option (PhysFrame × Option (Nat × Nat) × List PhysFrame)
  | _, _, [] => none
  | last, range, f :: rest =>
    match f.kind with
    | .thunk t =>
      advanceFrames collapse last
        (if publishesConservativeRange t then some (f.sp, f.sp + 1) else range) rest
    | .managed act =>
      if collapse && last == some act then
        advanceFrames collapse last range rest
      else
        some (f, range, rest)

/-- The iterator state: the not-yet-crossed physical frames, the validity
flag (the only end-of-walk signal), the currently reported frame, its
conservative range, and the activation last surfaced (for collapsing). -/
structure WalkState where
  frames : List PhysFrame
  valid : Bool
  current : Option PhysFrame
  conservativeRange : Option (Nat × Nat)
  lastActivation : Option Nat
deriving DecidableEq, Repr

/-- Validity query of the iterator (`StackFrameIterator::IsValid`). -/
def IsValid (s : WalkState) : Bool := s.valid

/-- Modelled from the spec: the advance operation
(`StackFrameIterator::NextInternal`, body not in the tree).  On an invalid
iterator it does nothing; otherwise it clears the conservative range and
runs the advance core, transitioning to the terminal invalid state when the
walk passes the bottom of the managed call chain.  There is no error
channel: the function is total and end-of-stack is visible only through the
validity flag. -/
def NextInternal (collapse : Bool) (s : WalkState) : WalkState :=
  if s.valid = false then s
  else
    match advanceFrames collapse s.lastActivation none s.frames with
    | none => { s with valid := false, current := none, conservativeRange := none }
    | some (f, range, rest) =>
      { frames := rest, valid := true, current := some f,
        conservativeRange := range, lastActivation := f.activationOf }

/-- Modelled from the spec: construction positions the iterator at its
first frame using the same advance logic used thereafter, so frame 0 and
frame N are handled uniformly. -/
def InternalInit (collapse : Bool) (stack : List PhysFrame) : WalkState :=
  NextInternal collapse
    { frames := stack, valid := true, current := none,
      conservativeRange := none, lastActivation := none }

/-- Modelled from the spec: the full sequence of frames one walk reports,
each paired with its conservative stack range.  This is the unfolding of
repeated `advanceFrames` calls, written structurally: trampoline frames are
crossed (publishing a range when appropriate), collapsed funclet frames are
skipped, every reported managed frame resets the range to null and becomes
the last surfaced activation. -/
def reportFrom (collapse : Bool) :
    Option Nat → Option (Nat × Nat) → List PhysFrame →
    List (PhysFrame × Option (Nat × Nat))
  | _, _, [] => []
  | last, range, f :: rest =>
    match f.kind with
    | .thunk t =>
      reportFrom collapse last
        (if publishesConservativeRange t then some (f.sp, f.sp + 1) else range) rest
    | .managed act =>
      if collapse && last == some act then
        reportFrom collapse last range rest
      else
        (f, range) :: reportFrom collapse (some act) none rest

/-- The reported frames of a whole walk over a physical stack. -/
def walkReports (collapse : Bool) (stack : List PhysFrame) :
    List (PhysFrame × Option (Nat × Nat)) :=
  reportFrom collapse none none stack

/-- Instrumented variant of `reportFrom` that records, for each reported
frame, the list of physical frames crossed since the previous report (or
since the start of the walk). -/
def reportFromCrossed (collapse : Bool) :
    Option Nat → List PhysFrame → List PhysFrame →
    List (PhysFrame × List PhysFrame)
  | _, _, [] => []
  | last, crossed, f :: rest =>
    match f.kind with
    | .thunk _ => reportFromCrossed collapse last (crossed ++ [f]) rest
    | .managed act =>
      if collapse && last == some act then
        reportFromCrossed collapse last (crossed ++ [f]) rest
      else
        (f, crossed) :: reportFromCrossed collapse (some act) [] rest

/-- The reported frames of a whole walk, each with the frames crossed since
the previous report. -/
def walkCrossed (collapse : Bool) (stack : List PhysFrame) :
    List (PhysFrame × List PhysFrame) :=
  reportFromCrossed collapse none [] stack

/-- Does a list of crossed frames contain a managed-callout or
universal-transition thunk? -/
def crossesRangeThunk (fs : List PhysFrame) : Bool :=
  fs.any (fun f =>
    match f.kind with
    | .thunk t => publishesConservativeRange t
    | .managed _ => false)

/-- Predicate picking out the frames of one activation. -/
def isActivationFrame (a : Nat) (f : PhysFrame) : Bool :=
  f.activationOf == some a

/-- Concrete stack used to exhibit two consecutive reported frames both
carrying a conservative range: two managed-callout thunks separated by a
single managed frame. -/
def nestedCalloutStack : List PhysFrame :=
  [⟨10, .managed 0⟩, ⟨20, .thunk .managedCallout⟩, ⟨30, .managed 1⟩,
   ⟨40, .thunk .managedCallout⟩, ⟨50, .managed 2⟩]

/-- A concrete terminal (invalid) iterator state. -/
def deadState : WalkState :=
  { frames := [], valid := false, current := none,
    conservativeRange := none, lastActivation := none }

/-- Concrete pairwise-disjoint trampoline ranges for witnesses. -/
def demoThunkRanges : ThunkRanges :=
  { throwSite := ⟨100, 110⟩, funcletInvoke := ⟨110, 120⟩,
    managedCallout := ⟨120, 130⟩, callDescr := ⟨130, 140⟩,
    universalTransition := ⟨140, 150⟩ }

/-! ## Helper lemmas -/

/-- Disjoint code ranges never both contain an address. -/
theorem CodeRange.not_contains_of_disjoint (r s : CodeRange) (a : Nat)
    (hd : r.DisjointFrom s) (h : r.containsAddr a = true) :
    s.containsAddr a = false := by
  simp only [CodeRange.containsAddr, CodeRange.DisjointFrom, Bool.and_eq_true,
    decide_eq_true_eq, Bool.and_eq_false_iff, decide_eq_false_iff_not] at h hd ⊢
  omega

/-- An invalid iterator is a fixed point of the advance operation. -/
theorem NextInternal_invalid_fix (collapse : Bool) (s : WalkState)
    (h : s.valid = false) : NextInternal collapse s = s := by
  unfold NextInternal
  simp [h]

/-- Iterating the advance operation from an invalid iterator changes
nothing. -/
theorem NextInternal_iterate_invalid_fix (collapse : Bool) (s : WalkState)
    (h : s.valid = false) (n : Nat) : (NextInternal collapse)^[n] s = s := by
  induction n with
  | zero => rfl
  | succ k ihk =>
    rw [Function.iterate_succ_apply, NextInternal_invalid_fix collapse s h, ihk]

/-! ## C1: mode-flag bitsets per walk kind -/

/-- C1 counterexample: the stack-trace walk's flag set is not the
funclet-collapsing flag alone; the header fixes `StackTraceStackWalkFlags =
GcStackWalkFlags`, which also contains the hardware-fault-remapping flag. -/
theorem stackTraceFlags_not_collapse_only :
    StackTraceStackWalkFlags ≠ CollapseFunclets ∧
    StackTraceStackWalkFlags &&& RemapHardwareFaultsToSafePoint ≠ 0 := by
  decide

/-- C1 (amended): construction fixes the mode-flag bitset per walk kind: a
GC walk sets exactly the funclet-collapsing and hardware-fault-remapping
flags, an exception-handling walk sets exactly the return-address-adjustment
flag, and a stack-trace walk sets the same flags as a GC walk (funclet
collapsing and hardware-fault remapping). -/
theorem walk_mode_flag_sets :
    GcStackWalkFlags = CollapseFunclets ||| RemapHardwareFaultsToSafePoint ∧
    EHStackWalkFlags = ApplyReturnAddressAdjustment ∧
    StackTraceStackWalkFlags = GcStackWalkFlags ∧
    GcStackWalkFlags &&& CollapseFunclets ≠ 0 ∧
    GcStackWalkFlags &&& RemapHardwareFaultsToSafePoint ≠ 0 ∧
    GcStackWalkFlags &&& ApplyReturnAddressAdjustment = 0 ∧
    GcStackWalkFlags &&& ExCollide = 0 ∧
    GcStackWalkFlags &&& MethodStateCalculated = 0 ∧
    GcStackWalkFlags &&& UnwoundReversePInvoke = 0 ∧
    EHStackWalkFlags &&& ApplyReturnAddressAdjustment ≠ 0 ∧
    EHStackWalkFlags &&& CollapseFunclets = 0 ∧
    EHStackWalkFlags &&& RemapHardwareFaultsToSafePoint = 0 ∧
    EHStackWalkFlags &&& ExCollide = 0 ∧
    EHStackWalkFlags &&& MethodStateCalculated = 0 ∧
    EHStackWalkFlags &&& UnwoundReversePInvoke = 0 ∧
    StackTraceStackWalkFlags &&& CollapseFunclets ≠ 0 ∧
    StackTraceStackWalkFlags &&& RemapHardwareFaultsToSafePoint ≠ 0 ∧
    StackTraceStackWalkFlags &&& ApplyReturnAddressAdjustment = 0 := by
  decide

/-! ## C5: return-address adjustment under exception-handling mode -/

/-- C5: under the exception-handling flag set every advance subtracts
exactly one unit from the control address reported by the unwinder, and for
a call instruction occupying `[callStart, retAddr)` inside the protected
region `[regionStart, regionStop)` the adjusted address stays inside that
region and never lands in an adjacent region beginning at `retAddr`. -/
theorem eh_return_address_adjustment
    (regionStart regionStop callStart retAddr nextRegionStop : Nat)
    (hstart : regionStart ≤ callStart) (hcall : callStart < retAddr)
    (hstop : retAddr ≤ regionStop) :
    applyAdjustment EHStackWalkFlags retAddr = retAddr - 1 ∧
    regionStart ≤ retAddr - 1 ∧ retAddr - 1 < regionStop ∧
    ¬(retAddr ≤ retAddr - 1 ∧ retAddr - 1 < nextRegionStop) := by
  have h1 : applyAdjustment EHStackWalkFlags retAddr = retAddr - 1 := by
    simp [applyAdjustment, EHStackWalkFlags, ApplyReturnAddressAdjustment,
      AdjustReturnAddressBackward]
  refine ⟨h1, ?_, ?_, ?_⟩ <;> omega

/-- C5 witness: the adjustment theorem applied at a concrete call site whose
return address sits exactly on the boundary of two adjacent try regions. -/
theorem eh_return_address_adjustment_witness :
    (100 ≤ 110 ∧ 110 < 112 ∧ 112 ≤ 112) ∧
    (applyAdjustment EHStackWalkFlags 112 = 112 - 1 ∧
     100 ≤ 112 - 1 ∧ 112 - 1 < 112 ∧ ¬(112 ≤ 112 - 1 ∧ 112 - 1 < 120)) :=
  ⟨by decide,
   eh_return_address_adjustment 100 112 110 112 120 (by decide) (by decide)
     (by decide)⟩

/-! ## C9: the invalid state is terminal -/

/-- C9: once the iterator is invalid, advancing any number of times leaves
the state unchanged and the validity query keeps answering false; the
advance operation is a total function on states, so end-of-walk is
observable only through the validity flag. -/
theorem invalid_state_terminal (collapse : Bool) (s : WalkState)
    (h : IsValid s = false) (n : Nat) :
    (NextInternal collapse)^[n] s = s ∧
    IsValid ((NextInternal collapse)^[n] s) = false := by
  have hiter := NextInternal_iterate_invalid_fix collapse s h n
  exact ⟨hiter, by rw [hiter]; exact h⟩

/-- C9 witness: the terminal-state theorem applied to a concrete invalid
iterator state. -/
theorem invalid_state_terminal_witness :
    IsValid deadState = false ∧
    ((NextInternal true)^[3] deadState = deadState ∧
     IsValid ((NextInternal true)^[3] deadState) = false) :=
  ⟨rfl, invalid_state_terminal true deadState rfl 3⟩

/-! ## C10: the thunk classifier assigns exactly one category -/

/-- C10: against pairwise-disjoint trampoline ranges, the classifier assigns
every (unadjusted) control address exactly one of the six categories, and
the assignment is characterised purely by which (unique) range contains the
address — ordinary managed code exactly when no trampoline range contains
it.  The classifier is a function of the address and the fixed ranges
alone, so two classifications of one address agree and no iterator state is
read or written. -/
theorem categorize_exactly_one (tr : ThunkRanges) (a : Nat)
    (hwf : tr.Wellformed) :
    (CategorizeUnadjustedReturnAddress tr a = .InThrowSiteThunk ↔
      tr.throwSite.containsAddr a = true) ∧
    (CategorizeUnadjustedReturnAddress tr a = .InFuncletInvokeThunk ↔
      tr.funcletInvoke.containsAddr a = true) ∧
    (CategorizeUnadjustedReturnAddress tr a = .InManagedCalloutThunk ↔
      tr.managedCallout.containsAddr a = true) ∧
    (CategorizeUnadjustedReturnAddress tr a = .InCallDescrThunk ↔
      tr.callDescr.containsAddr a = true) ∧
    (CategorizeUnadjustedReturnAddress tr a = .InUniversalTransitionThunk ↔
      tr.universalTransition.containsAddr a = true) ∧
    (CategorizeUnadjustedReturnAddress tr a = .InManagedCode ↔
      (tr.throwSite.containsAddr a = false ∧
       tr.funcletInvoke.containsAddr a = false ∧
       tr.managedCallout.containsAddr a = false ∧
       tr.callDescr.containsAddr a = false ∧
       tr.universalTransition.containsAddr a = false)) := by
  obtain ⟨d1, d2, d3, d4, d5, d6, d7, d8, d9, d10⟩ := hwf
  unfold CategorizeUnadjustedReturnAddress
  split_ifs with h1 h2 h3 h4 h5
  · have e2 := CodeRange.not_contains_of_disjoint _ _ a d1 h1
    have e3 := CodeRange.not_contains_of_disjoint _ _ a d2 h1
    have e4 := CodeRange.not_contains_of_disjoint _ _ a d3 h1
    have e5 := CodeRange.not_contains_of_disjoint _ _ a d4 h1
    simp [h1, e2, e3, e4, e5]
  · have e3 := CodeRange.not_contains_of_disjoint _ _ a d5 h2
    have e4 := CodeRange.not_contains_of_disjoint _ _ a d6 h2
    have e5 := CodeRange.not_contains_of_disjoint _ _ a d7 h2
    simp [h1, h2, e3, e4, e5]
  · have e4 := CodeRange.not_contains_of_disjoint _ _ a d8 h3
    have e5 := CodeRange.not_contains_of_disjoint _ _ a d9 h3
    simp [h1, h2, h3, e4, e5]
  · have e5 := CodeRange.not_contains_of_disjoint _ _ a d10 h4
    simp [h1, h2, h3, h4, e5]
  · simp [h1, h2, h3, h4, h5]
  · simp [h1, h2, h3, h4, h5]

/-- C10 witness: the classifier characterisation applied to concrete
disjoint ranges at a concrete address falling in the managed-callout
range. -/
theorem categorize_exactly_one_witness :
    demoThunkRanges.Wellformed ∧
    ((CategorizeUnadjustedReturnAddress demoThunkRanges 125 = .InThrowSiteThunk ↔
        demoThunkRanges.throwSite.containsAddr 125 = true) ∧
     (CategorizeUnadjustedReturnAddress demoThunkRanges 125 = .InFuncletInvokeThunk ↔
        demoThunkRanges.funcletInvoke.containsAddr 125 = true) ∧
     (CategorizeUnadjustedReturnAddress demoThunkRanges 125 = .InManagedCalloutThunk ↔
        demoThunkRanges.managedCallout.containsAddr 125 = true) ∧
     (CategorizeUnadjustedReturnAddress demoThunkRanges 125 = .InCallDescrThunk ↔
        demoThunkRanges.callDescr.containsAddr 125 = true) ∧
     (CategorizeUnadjustedReturnAddress demoThunkRanges 125 = .InUniversalTransitionThunk ↔
        demoThunkRanges.universalTransition.containsAddr 125 = true) ∧
     (CategorizeUnadjustedReturnAddress demoThunkRanges 125 = .InManagedCode ↔
        (demoThunkRanges.throwSite.containsAddr 125 = false ∧
         demoThunkRanges.funcletInvoke.containsAddr 125 = false ∧
         demoThunkRanges.managedCallout.containsAddr 125 = false ∧
         demoThunkRanges.callDescr.containsAddr 125 = false ∧
         demoThunkRanges.universalTransition.containsAddr 125 = false))) :=
  ⟨by unfold ThunkRanges.Wellformed CodeRange.DisjointFrom demoThunkRanges; decide,
   categorize_exactly_one demoThunkRanges 125
     (by unfold ThunkRanges.Wellformed CodeRange.DisjointFrom demoThunkRanges; decide)⟩

/-! ## C6: ResetNextExInfoForSP repositions to the first record at or above SP -/

/-- Every record left on the cursor after a reset is at or above the reset
address, provided the chain is in ascending order. -/
theorem resetNextExInfo_all_ge (SP : Nat) :
    ∀ (chain : List Nat), chain.Pairwise (· ≤ ·) →
      ∀ x ∈ ResetNextExInfoForSP SP chain, SP ≤ x := by
  intro chain
  induction chain with
  | nil => intro _ x hx; simp [ResetNextExInfoForSP] at hx
  | cons b rest ih =>
    intro hp x hx
    obtain ⟨hble, hrest⟩ := List.pairwise_cons.mp hp
    by_cases hb : b < SP
    · rw [ResetNextExInfoForSP, List.dropWhile_cons] at hx
      simp only [hb, decide_eq_true_eq, if_pos] at hx
      exact ih hrest x hx
    · rw [ResetNextExInfoForSP, List.dropWhile_cons] at hx
      simp only [hb, decide_eq_true_eq, if_neg] at hx
      rcases List.mem_cons.mp hx with rfl | hxr
      · omega
      · exact Nat.le_trans (by omega) (hble x hxr)

/-- C6: `ResetNextExInfoForSP` repositions the exception-info cursor to the
first record whose stack address is at or above the given address: the
chain splits as the skipped records followed by the new cursor, every
skipped record lies strictly below the address, and (for an ascending
chain) every record on the new cursor lies at or above it — so the cursor's
head is the first such record in ascending order. -/
theorem resetNextExInfo_repositions (SP : Nat) (chain : List Nat)
    (hsorted : chain.Pairwise (· ≤ ·)) :
    chain.takeWhile (fun addr => decide (addr < SP)) ++
        ResetNextExInfoForSP SP chain = chain ∧
    (∀ x ∈ chain.takeWhile (fun addr => decide (addr < SP)), x < SP) ∧
    (∀ x ∈ ResetNextExInfoForSP SP chain, SP ≤ x) := by
  refine ⟨?_, ?_, resetNextExInfo_all_ge SP chain hsorted⟩
  · unfold ResetNextExInfoForSP
    exact List.takeWhile_append_dropWhile (fun addr => decide (addr < SP)) chain
  intro x hx
  have := List.mem_takeWhile_imp hx
  exact of_decide_eq_true this

/-- C6 witness: the reset theorem applied to a concrete ascending chain and
a concrete stack address. -/
theorem resetNextExInfo_repositions_witness :
    ([1, 4, 7] : List Nat).Pairwise (· ≤ ·) ∧
    (([1, 4, 7] : List Nat).takeWhile (fun addr => decide (addr < 3)) ++
        ResetNextExInfoForSP 3 [1, 4, 7] = [1, 4, 7] ∧
     (∀ x ∈ ([1, 4, 7] : List Nat).takeWhile (fun addr => decide (addr < 3)), x < 3) ∧
     (∀ x ∈ ResetNextExInfoForSP 3 [1, 4, 7], 3 ≤ x)) :=
  ⟨by decide, resetNextExInfo_repositions 3 [1, 4, 7] (by decide)⟩

/-! ## C3: collision monotonicity across one walk -/

/-- The collisions reported across one walk form a sublist of the
exception-info chain. -/
theorem reportedCollisions_sublist :
    ∀ (sps chain : List Nat), (reportedCollisions sps chain).Sublist chain := by
  intro sps
  induction sps with
  | nil => intro chain; simp [reportedCollisions]
  | cons sp sps ih =>
    intro chain
    cases chain with
    | nil =>
      simp only [reportedCollisions, collideStep]
      exact ih []
    | cons addr rest =>
      by_cases h : addr ≤ sp
      · rw [show reportedCollisions (sp :: sps) (addr :: rest)
              = addr :: reportedCollisions sps rest from by
            simp [reportedCollisions, collideStep, h]]
        exact List.Sublist.cons₂ addr (ih rest)
      · rw [show reportedCollisions (sp :: sps) (addr :: rest)
              = reportedCollisions sps (addr :: rest) from by
            simp [reportedCollisions, collideStep, h]]
        exact ih (addr :: rest)

/-- The exception-info cursor left after a walk is a suffix of the chain it
started from: the cursor only ever moved forward. -/
theorem finalExInfoCursor_suffix :
    ∀ (sps chain : List Nat), (finalExInfoCursor sps chain).IsSuffix chain := by
  intro sps
  induction sps with
  | nil => intro chain; simp [finalExInfoCursor]
  | cons sp sps ih =>
    intro chain
    cases chain with
    | nil =>
      simp only [finalExInfoCursor, collideStep]
      exact ih []
    | cons addr rest =>
      by_cases h : addr ≤ sp
      · rw [show finalExInfoCursor (sp :: sps) (addr :: rest)
              = finalExInfoCursor sps rest from by
            simp [finalExInfoCursor, collideStep, h]]
        exact (ih rest).trans (List.suffix_cons addr rest)
      · rw [show finalExInfoCursor (sp :: sps) (addr :: rest)
              = finalExInfoCursor sps (addr :: rest) from by
            simp [finalExInfoCursor, collideStep, h]]
        exact ih (addr :: rest)

/-- C3: across one walk over an ascending exception-info chain, the cursor
only moves toward higher stack addresses (it always remains a suffix of the
chain it started from), successive reported collisions occur at strictly
increasing stack addresses, and no record's collision is reported more than
once. -/
theorem collision_monotonicity (sps chain : List Nat)
    (hsorted : chain.Pairwise (· < ·)) :
    (finalExInfoCursor sps chain).IsSuffix chain ∧
    (reportedCollisions sps chain).Pairwise (· < ·) ∧
    (reportedCollisions sps chain).Nodup := by
  have hpw : (reportedCollisions sps chain).Pairwise (· < ·) :=
    List.Pairwise.sublist (reportedCollisions_sublist sps chain) hsorted
  exact ⟨finalExInfoCursor_suffix sps chain, hpw,
    hpw.imp (fun h => Nat.ne_of_lt h)⟩

/-- C3 witness: the collision-monotonicity theorem applied to a concrete
walk and a concrete ascending chain, in which two collisions fire. -/
theorem collision_monotonicity_witness :
    ([4, 20, 30] : List Nat).Pairwise (· < ·) ∧
    ((finalExInfoCursor [5, 10, 50] [4, 20, 30]).IsSuffix [4, 20, 30] ∧
     (reportedCollisions [5, 10, 50] [4, 20, 30]).Pairwise (· < ·) ∧
     (reportedCollisions [5, 10, 50] [4, 20, 30]).Nodup) :=
  ⟨by decide, collision_monotonicity [5, 10, 50] [4, 20, 30] (by decide)⟩

/-! ## C2: conservative stack range scoping -/

/-- Core correspondence for the conservative range: threading the range
through the walk, a reported frame carries a non-null range exactly when
the frames crossed since the previous report (tracked by the instrumented
walk) contain a managed-callout or universal-transition thunk.  The
hypothesis relates the two accumulators at the start. -/
theorem reportFrom_isSome_eq_crossed (c : Bool) :
    ∀ (l : List PhysFrame) (last : Option Nat) (range : Option (Nat × Nat))
      (crossed : List PhysFrame),
      range.isSome = crossesRangeThunk crossed →
      (reportFrom c last range l).map (fun e => e.2.isSome) =
        (reportFromCrossed c last crossed l).map (fun e => crossesRangeThunk e.2) := by
  intro l
  induction l with
  | nil => intro last range crossed h; simp [reportFrom, reportFromCrossed]
  | cons f rest ih =>
    intro last range crossed h
    cases hk : f.kind with
    | thunk t =>
      simp only [reportFrom, reportFromCrossed, hk]
      apply ih
      cases hp : publishesConservativeRange t with
      | true =>
        simp [hp, crossesRangeThunk, List.any_append, hk]
      | false =>
        simp only [hp, Bool.false_eq_true, if_neg, not_false_iff]
        rw [h]
        simp [crossesRangeThunk, List.any_append, hk, hp]
    | managed act =>
      simp only [reportFrom, reportFromCrossed, hk]
      by_cases hc : (c && last == some act) = true
      · simp only [if_pos hc]
        apply ih
        rw [h]
        simp [crossesRangeThunk, List.any_append, hk]
      · simp only [if_neg hc, List.map_cons]
        rw [h]
        congr 1
        apply ih
        simp [crossesRangeThunk]

/-- C2 (amended): across any walk, a reported frame's conservative stack
range is non-null exactly when a managed-callout or universal-transition
thunk was crossed since the previously reported frame (or since the start
of the walk), and null otherwise. -/
theorem conservative_range_iff_crossed_thunk (collapse : Bool)
    (stack : List PhysFrame) :
    (walkReports collapse stack).map (fun e => e.2.isSome) =
      (walkCrossed collapse stack).map (fun e => crossesRangeThunk e.2) :=
  reportFrom_isSome_eq_crossed collapse stack none none [] rfl

/-- C2 counterexample: on a stack with two managed-callout thunks separated
by a single managed frame, the second and third reported frames are
consecutive and both carry a non-null conservative range, refuting the
claim that the range is never non-null for two consecutively reported
frames. -/
theorem conservative_range_consecutive_cex :
    (walkReports true nestedCalloutStack).map (fun e => e.2.isSome)
        = [false, true, true] ∧
    ((walkReports true nestedCalloutStack).getD 1 (⟨0, .managed 0⟩, none)).2.isSome
        = true ∧
    ((walkReports true nestedCalloutStack).getD 2 (⟨0, .managed 0⟩, none)).2.isSome
        = true := by
  refine ⟨by decide, by decide, by decide⟩

/-! ## Coherence: the reported sequence is the unfolding of the advance core -/

/-- The report list is exactly what repeated applications of the advance
core produce. -/
theorem reportFrom_eq_advanceFrames (c : Bool) :
    ∀ (l : List PhysFrame) (last : Option Nat) (range : Option (Nat × Nat)),
      reportFrom c last range l =
        (match advanceFrames c last range l with
         | none => []
         | some (f, r, rest) => (f, r) :: reportFrom c f.activationOf none rest) := by
  intro l
  induction l with
  | nil => intro last range; simp [reportFrom, advanceFrames]
  | cons f rest ih =>
    intro last range
    cases hk : f.kind with
    | thunk t =>
      simp only [reportFrom, advanceFrames, hk]
      apply ih
    | managed act =>
      simp only [reportFrom, advanceFrames, hk]
      by_cases hc : (c && last == some act) = true
      · simp only [hc, if_pos]
        apply ih
      · simp only [hc, if_neg, not_false_iff]
        simp [PhysFrame.activationOf, hk]

/-! ## C8: termination within the number of physical frames -/

/-- A successful advance strictly shrinks the list of remaining physical
frames. -/
theorem advanceFrames_length_lt (c : Bool) :
    ∀ (l : List PhysFrame) (last : Option Nat) (range : Option (Nat × Nat))
      (f : PhysFrame) (r : Option (Nat × Nat)) (rest : List PhysFrame),
      advanceFrames c last range l = some (f, r, rest) →
      rest.length < l.length := by
  intro l
  induction l with
  | nil => intro last range f r rest h; simp [advanceFrames] at h
  | cons g l ih =>
    intro last range f r rest h
    cases hk : g.kind with
    | thunk t =>
      simp only [advanceFrames, hk] at h
      exact Nat.lt_succ_of_lt (ih _ _ _ _ _ h)
    | managed act =>
      simp only [advanceFrames, hk] at h
      by_cases hc : (c && last == some act) = true
      · rw [if_pos hc] at h
        exact Nat.lt_succ_of_lt (ih _ _ _ _ _ h)
      · rw [if_neg hc] at h
        simp only [Option.some.injEq, Prod.mk.injEq] at h
        obtain ⟨-, -, hr⟩ := h
        subst hr
        exact Nat.lt_succ_self _

/-- A valid advance that stays valid strictly shrinks the remaining
frames. -/
theorem NextInternal_frames_lt (c : Bool) (s : WalkState)
    (hs : s.valid = true) (hnext : (NextInternal c s).valid = true) :
    (NextInternal c s).frames.length < s.frames.length := by
  unfold NextInternal at hnext ⊢
  rw [if_neg (by simp [hs])] at hnext ⊢
  cases hadv : advanceFrames c s.lastActivation none s.frames with
  | none =>
    rw [hadv] at hnext
    exact Bool.noConfusion hnext
  | some t =>
    obtain ⟨f, r, rest⟩ := t
    exact advanceFrames_length_lt c s.frames s.lastActivation none f r rest hadv

/-- From any state whose remaining frames number at most `m`, at most
`m + 1` further advances reach the terminal invalid state. -/
theorem NextInternal_iterate_reaches_invalid (c : Bool) :
    ∀ (m : Nat) (s : WalkState), s.frames.length ≤ m →
      ((NextInternal c)^[m + 1] s).valid = false := by
  intro m
  induction m with
  | zero =>
    intro s hlen
    have hnil : s.frames = [] := List.length_eq_zero.mp (Nat.le_zero.mp hlen)
    rw [Function.iterate_one]
    unfold NextInternal
    by_cases hv : s.valid = false
    · rw [if_pos hv]; exact hv
    · rw [if_neg hv, hnil]
      simp [advanceFrames]
  | succ m ih =>
    intro s hlen
    rw [Function.iterate_succ_apply]
    by_cases h2 : (NextInternal c s).valid = false
    · rw [NextInternal_iterate_invalid_fix c _ h2]
      exact h2
    · have h2t : (NextInternal c s).valid = true := by
        cases hvv : (NextInternal c s).valid
        · exact absurd hvv h2
        · rfl
      by_cases hv : s.valid = true
      · have hdec := NextInternal_frames_lt c s hv h2t
        exact ih (NextInternal c s) (by omega)
      · have hvf : s.valid = false := by
          cases hvv : s.valid
          · rfl
          · exact absurd hvv hv
        rw [NextInternal_invalid_fix c s hvf] at h2t
        exact absurd h2t (by simp [hvf])

/-- C8: for every stack, repeated advancing from the constructed initial
frame reaches the terminal invalid state within a number of advance steps
bounded by the number of physical frames on the stack. -/
theorem walk_terminates_within_frame_count (collapse : Bool)
    (stack : List PhysFrame) :
    ∃ k, k ≤ stack.length ∧
      IsValid ((NextInternal collapse)^[k] (InternalInit collapse stack)) = false := by
  cases stack with
  | nil =>
    refine ⟨0, Nat.le_refl 0, ?_⟩
    simp [InternalInit, NextInternal, advanceFrames, IsValid]
  | cons f stack =>
    have hinit : InternalInit collapse (f :: stack)
        = NextInternal collapse
            { frames := f :: stack, valid := true, current := none,
              conservativeRange := none, lastActivation := none } := rfl
    by_cases h1 : (InternalInit collapse (f :: stack)).valid = false
    · exact ⟨0, Nat.zero_le _, h1⟩
    · have h1t : (InternalInit collapse (f :: stack)).valid = true := by
        cases hvv : (InternalInit collapse (f :: stack)).valid
        · exact absurd hvv h1
        · rfl
      have hdec : (InternalInit collapse (f :: stack)).frames.length
          < (f :: stack).length := by
        rw [hinit]
        exact NextInternal_frames_lt collapse _ rfl (hinit ▸ h1t)
      refine ⟨stack.length + 1, Nat.le_refl _, ?_⟩
      exact NextInternal_iterate_reaches_invalid collapse stack.length
        (InternalInit collapse (f :: stack)) (by simp at hdec; omega)

/-! ## C4: funclet collapsing surfaces exactly the innermost frame -/

/-- Reports over a stretch with no frame of activation `a` contribute
nothing to the filtered reports of activation `a`. -/
theorem filter_reportFrom_no_activation (a : Nat) :
    ∀ (l : List PhysFrame) (last : Option Nat) (range : Option (Nat × Nat)),
      (∀ f ∈ l, f.activationOf ≠ some a) →
      ((reportFrom true last range l).map Prod.fst).filter (isActivationFrame a)
        = [] := by
  intro l
  induction l with
  | nil => intro last range h; simp [reportFrom]
  | cons f rest ih =>
    intro last range h
    have hf := h f (List.mem_cons_self f rest)
    have hrest : ∀ g ∈ rest, g.activationOf ≠ some a :=
      fun g hg => h g (List.mem_cons_of_mem f hg)
    cases hk : f.kind with
    | thunk t =>
      simp only [reportFrom, hk]
      exact ih _ _ hrest
    | managed act =>
      have hact : f.activationOf = some act := by simp [PhysFrame.activationOf, hk]
      have hfa : isActivationFrame a f = false := by
        simp only [isActivationFrame, hact, beq_eq_false_iff_ne, ne_eq,
          Option.some.injEq]
        intro hEq
        exact hf (hact.trans (by rw [hEq]))
      simp only [reportFrom, hk]
      by_cases hc : (true && last == some act) = true
      · rw [if_pos hc]; exact ih _ _ hrest
      · rw [if_neg hc]
        simp only [List.map_cons, List.filter_cons, hfa]
        simp only [Bool.false_eq_true, if_false]
        exact ih _ _ hrest

/-- Once activation `a` has been surfaced, the walk silently skips the rest
of that activation's frames (funclet frames and interleaved trampolines),
only threading the conservative range through. -/
theorem reportFrom_skips_same_activation (a : Nat) :
    ∀ (l : List PhysFrame),
      (∀ f ∈ l, f.activationOf = some a ∨ f.activationOf = none) →
      ∀ (range : Option (Nat × Nat)) (rest : List PhysFrame),
        ∃ range2, reportFrom true (some a) range (l ++ rest)
          = reportFrom true (some a) range2 rest := by
  intro l
  induction l with
  | nil => intro h range rest; exact ⟨range, rfl⟩
  | cons f l ih =>
    intro h range rest
    have hf := h f (List.mem_cons_self f l)
    have hl : ∀ g ∈ l, g.activationOf = some a ∨ g.activationOf = none :=
      fun g hg => h g (List.mem_cons_of_mem f hg)
    cases hk : f.kind with
    | thunk t =>
      simp only [List.cons_append, reportFrom, hk]
      exact ih hl _ rest
    | managed act =>
      have hact : f.activationOf = some act := by simp [PhysFrame.activationOf, hk]
      have haa : act = a := by
        rcases hf with h1 | h1
        · rw [hact] at h1; exact Option.some.inj h1
        · rw [hact] at h1; exact Option.noConfusion h1
      subst haa
      simp only [List.cons_append, reportFrom, hk]
      rw [if_pos (by simp)]
      exact ih hl range rest

/-- Entering a stretch whose managed frames all belong to activation `a`
(with trampolines possibly interleaved), the walk reports the first
(leafmost) frame of activation `a` and then skips the remainder of the
stretch. -/
theorem reportFrom_block_first (a : Nat) :
    ∀ (l : List PhysFrame) (last : Option Nat) (range : Option (Nat × Nat))
      (rest : List PhysFrame),
      last ≠ some a →
      (∀ f ∈ l, f.activationOf = some a ∨ f.activationOf = none) →
      (∃ f ∈ l, f.activationOf = some a) →
      ∃ f0 range1 range2, l.find? (isActivationFrame a) = some f0 ∧
        reportFrom true last range (l ++ rest)
          = (f0, range1) :: reportFrom true (some a) range2 rest := by
  intro l
  induction l with
  | nil =>
    intro last range rest hlast hall hex
    simp at hex
  | cons f l ih =>
    intro last range rest hlast hall hex
    have hl : ∀ g ∈ l, g.activationOf = some a ∨ g.activationOf = none :=
      fun g hg => hall g (List.mem_cons_of_mem f hg)
    cases hk : f.kind with
    | thunk t =>
      have hact : f.activationOf = none := by simp [PhysFrame.activationOf, hk]
      have hex2 : ∃ g ∈ l, g.activationOf = some a := by
        rcases hex with ⟨g, hg, hga⟩
        rcases List.mem_cons.mp hg with rfl | hgl
        · rw [hact] at hga; exact Option.noConfusion hga
        · exact ⟨g, hgl, hga⟩
      obtain ⟨f0, r1, r2, hfind, heq⟩ := ih last _ rest hlast hl hex2
      refine ⟨f0, r1, r2, ?_, ?_⟩
      · have hfa : isActivationFrame a f = false := by
          simp [isActivationFrame, hact]
        rw [List.find?_cons_of_neg _ (by simp [hfa]), hfind]
      · simp only [List.cons_append, reportFrom, hk]
        exact heq
    | managed act =>
      have hact : f.activationOf = some act := by simp [PhysFrame.activationOf, hk]
      have haa : act = a := by
        rcases hall f (List.mem_cons_self f l) with h1 | h1
        · rw [hact] at h1; exact Option.some.inj h1
        · rw [hact] at h1; exact Option.noConfusion h1
      obtain ⟨range2, heq2⟩ := reportFrom_skips_same_activation a l hl none rest
      refine ⟨f, range, range2, ?_, ?_⟩
      · have hfa : isActivationFrame a f = true := by
          simp [isActivationFrame, hact, haa]
        rw [List.find?_cons_of_pos _ (by simp [hfa])]
      · have hbeq : (last == some act) = false := by
          rw [haa]; exact beq_eq_false_iff_ne.mpr hlast
        simp only [List.cons_append, reportFrom, hk]
        rw [if_neg (by simp [hbeq])]
        rw [haa]
        simp only [List.append_eq]
        rw [heq2]

/-- Reports over a stretch whose frames never belong to activation `a`
leave the filtered reports of activation `a` untouched, and the surfaced
activation stays different from `a`. -/
theorem filter_reportFrom_before_block (a : Nat) :
    ∀ (l : List PhysFrame) (last : Option Nat) (range : Option (Nat × Nat))
      (rest : List PhysFrame),
      last ≠ some a →
      (∀ f ∈ l, f.activationOf ≠ some a) →
      ∃ last2 range2, last2 ≠ some a ∧
        ((reportFrom true last range (l ++ rest)).map Prod.fst).filter
            (isActivationFrame a)
          = ((reportFrom true last2 range2 rest).map Prod.fst).filter
              (isActivationFrame a) := by
  intro l
  induction l with
  | nil =>
    intro last range rest hlast h
    exact ⟨last, range, hlast, rfl⟩
  | cons f l ih =>
    intro last range rest hlast h
    have hf := h f (List.mem_cons_self f l)
    have hl : ∀ g ∈ l, g.activationOf ≠ some a :=
      fun g hg => h g (List.mem_cons_of_mem f hg)
    cases hk : f.kind with
    | thunk t =>
      simp only [List.cons_append, reportFrom, hk]
      exact ih last _ rest hlast hl
    | managed act =>
      have hact : f.activationOf = some act := by simp [PhysFrame.activationOf, hk]
      have hne : act ≠ a := by
        intro hEq
        exact hf (hact.trans (by rw [hEq]))
      simp only [List.cons_append, reportFrom, hk]
      by_cases hc : (true && last == some act) = true
      · rw [if_pos hc]
        exact ih last range rest hlast hl
      · rw [if_neg hc]
        have hfa : isActivationFrame a f = false := by
          simp only [isActivationFrame, hact, beq_eq_false_iff_ne, ne_eq,
            Option.some.injEq]
          exact hne
        obtain ⟨last2, range2, hlast2, heq⟩ :=
          ih (some act) none rest (by simp [hne]) hl
        refine ⟨last2, range2, hlast2, ?_⟩
        simp only [List.map_cons, List.filter_cons, hfa]
        simp only [Bool.false_eq_true, if_false]
        exact heq

/-- C4: under GC-walk mode (funclet collapsing on), for a method activation
whose physical frames (funclets plus interleaved trampolines) occupy one
stretch of the stack, exactly one callback frame is surfaced for that
activation, and it is the innermost (leafmost, first in walk order)
physical frame of the activation; the other frames of the activation are
skipped without being reported. -/
theorem collapse_one_callback_per_activation
    (pre block post : List PhysFrame) (a : Nat)
    (hpre : ∀ f ∈ pre, f.activationOf ≠ some a)
    (hblock : ∀ f ∈ block, f.activationOf = some a ∨ f.activationOf = none)
    (hpost : ∀ f ∈ post, f.activationOf ≠ some a)
    (hsome : ∃ f ∈ block, f.activationOf = some a) :
    ∃ f0, block.find? (isActivationFrame a) = some f0 ∧
      ((walkReports true (pre ++ block ++ post)).map Prod.fst).filter
          (isActivationFrame a) = [f0] := by
  obtain ⟨last2, range2, hlast2, heq1⟩ :=
    filter_reportFrom_before_block a pre none none (block ++ post)
      (by simp) hpre
  obtain ⟨f0, r1, r2, hfind, heq2⟩ :=
    reportFrom_block_first a block last2 range2 post hlast2 hblock hsome
  refine ⟨f0, hfind, ?_⟩
  rw [walkReports, List.append_assoc, heq1, heq2]
  have hf0 : isActivationFrame a f0 = true := List.find?_some hfind
  simp only [List.map_cons, List.filter_cons, hf0, if_true]
  rw [filter_reportFrom_no_activation a post (some a) r2 hpost]

/-- C4 witness: the collapsing theorem applied to a concrete stack in which
activation `3` has three funclet frames separated by a funclet-invoke
trampoline; the surfaced frame is the leafmost one at stack address 10. -/
theorem collapse_one_callback_witness :
    (∀ f ∈ [(⟨5, .managed 7⟩ : PhysFrame)], f.activationOf ≠ some 3) ∧
    (∀ f ∈ [(⟨10, .managed 3⟩ : PhysFrame), ⟨12, .thunk .funcletInvoke⟩,
        ⟨14, .managed 3⟩, ⟨16, .managed 3⟩],
      f.activationOf = some 3 ∨ f.activationOf = none) ∧
    (∀ f ∈ [(⟨20, .managed 8⟩ : PhysFrame)], f.activationOf ≠ some 3) ∧
    (∃ f ∈ [(⟨10, .managed 3⟩ : PhysFrame), ⟨12, .thunk .funcletInvoke⟩,
        ⟨14, .managed 3⟩, ⟨16, .managed 3⟩], f.activationOf = some 3) ∧
    (∃ f0, ([(⟨10, .managed 3⟩ : PhysFrame), ⟨12, .thunk .funcletInvoke⟩,
        ⟨14, .managed 3⟩, ⟨16, .managed 3⟩].find? (isActivationFrame 3)
          = some f0 ∧
      ((walkReports true ([(⟨5, .managed 7⟩ : PhysFrame)] ++
          [(⟨10, .managed 3⟩ : PhysFrame), ⟨12, .thunk .funcletInvoke⟩,
           ⟨14, .managed 3⟩, ⟨16, .managed 3⟩] ++
          [(⟨20, .managed 8⟩ : PhysFrame)])).map Prod.fst).filter
        (isActivationFrame 3) = [f0])) :=
  ⟨by decide, by decide, by decide, by decide,
   collapse_one_callback_per_activation
     [(⟨5, .managed 7⟩ : PhysFrame)]
     [(⟨10, .managed 3⟩ : PhysFrame), ⟨12, .thunk .funcletInvoke⟩,
      ⟨14, .managed 3⟩, ⟨16, .managed 3⟩]
     [(⟨20, .managed 8⟩ : PhysFrame)] 3
     (by decide) (by decide) (by decide) (by decide)⟩

/-! ## C7: hardware-fault frames are remapped to a GC-safe point -/

/-- C7: when the flag set contains `RemapHardwareFaultsToSafePoint` (as the
GC-walk flags do) and the frame is a hardware-fault frame, the reported
control address is replaced by the GC-safe point inserted after the
prologue of the handler of the nearest (most nested) enclosing protected
region of the fault site: the selected region contains the fault address
and has minimal extent among all regions containing it. -/
theorem remap_hardware_fault_to_safepoint (regions : List EHRegion) (pc : Nat)
    (r : EHRegion) (hfind : nearestEnclosingHandler regions pc = some r) :
    RemapHardwareFaultToGCSafePoint GcStackWalkFlags EK_HardwareFault regions pc
        = r.handlerSafePoint ∧
    r ∈ regions ∧ r.containsPC pc = true ∧
    ∀ s ∈ regions, s.containsPC pc = true → r.extent ≤ s.extent := by
  have hmem : r ∈ (regions.filter (fun q => q.containsPC pc)).argmin EHRegion.extent :=
    hfind
  have hrf : r ∈ regions.filter (fun q => q.containsPC pc) :=
    List.argmin_mem hmem
  have hc := List.mem_filter.mp hrf
  refine ⟨?_, hc.1, hc.2, ?_⟩
  · rw [show RemapHardwareFaultToGCSafePoint GcStackWalkFlags EK_HardwareFault
          regions pc
        = match nearestEnclosingHandler regions pc with
          | some q => q.handlerSafePoint
          | none => pc from by
      unfold RemapHardwareFaultToGCSafePoint
      rw [if_pos (by decide)]]
    rw [hfind]
  · intro s hs hcontains
    exact List.le_of_mem_argmin (List.mem_filter.mpr ⟨hs, hcontains⟩) hmem

/-- C7 witness: the remap theorem applied to concrete nested regions; the
fault at address 12 is remapped to the safe point of the inner region
`[10, 20)`, not to the fault address. -/
theorem remap_hardware_fault_witness :
    nearestEnclosingHandler [⟨0, 100, 7⟩, ⟨10, 20, 15⟩] 12 = some ⟨10, 20, 15⟩ ∧
    (RemapHardwareFaultToGCSafePoint GcStackWalkFlags EK_HardwareFault
        [⟨0, 100, 7⟩, ⟨10, 20, 15⟩] 12 = (⟨10, 20, 15⟩ : EHRegion).handlerSafePoint ∧
     (⟨10, 20, 15⟩ : EHRegion) ∈ [(⟨0, 100, 7⟩ : EHRegion), ⟨10, 20, 15⟩] ∧
     (⟨10, 20, 15⟩ : EHRegion).containsPC 12 = true ∧
     ∀ s ∈ [(⟨0, 100, 7⟩ : EHRegion), ⟨10, 20, 15⟩], s.containsPC 12 = true →
       (⟨10, 20, 15⟩ : EHRegion).extent ≤ s.extent) :=
  ⟨by decide,
   remap_hardware_fault_to_safepoint [⟨0, 100, 7⟩, ⟨10, 20, 15⟩] 12
     ⟨10, 20, 15⟩ (by decide)⟩
